import Mathlib

/-!
Verification of the search planning and caching subsystem of the Lumina
repository: `backend/agents/search_router.py` (SearchCache, SearchRouter,
SearchPlan) and `backend/agents/search_agent.py` (WebSearchAgent), together
with the data model from `shared/schemas/models.py`.

Python strings are modelled as Lean `String`, Python `float` timestamps and
scores as `Int` / `ℚ`, Python dicts (insertion ordered) as association
lists, and `hashlib.sha256(...).hexdigest()` by an executable SHA-256 over
UTF-8 byte lists.  Mutation of the `images` list of a result object
(relevant to the aliasing behaviour of the cache) is modelled separately
with an explicit heap of image-list cells.
-/

set_option maxRecDepth 16000

namespace Lumina

/-! ### Python string primitives -/

/-- The ASCII whitespace characters recognised by Python's `str.strip()` and
`str.split()` (the Unicode-only whitespace code points are not modelled;
all inputs considered here are ASCII). -/
def pyIsSpace (c : Char) : Bool :=
  c = ' ' || c = '\t' || c = '\n' || c = '\r' || c = '\x0b' || c = '\x0c'

/-- Python `s.strip()`: remove leading and trailing whitespace. -/
def pyStrip (s : String) : String :=
  String.mk (((s.data.dropWhile pyIsSpace).reverse.dropWhile pyIsSpace).reverse)

/-- Lower-case a single character (ASCII; Python `str.lower` restricted to
the ASCII range). -/
def pyLowerChar (c : Char) : Char :=
  if 'A' ≤ c ∧ c ≤ 'Z' then Char.ofNat (c.toNat + 32) else c

/-- Python `s.lower()` (ASCII range). -/
def pyLower (s : String) : String :=
  String.mk (s.data.map pyLowerChar)

/-- Helper for `pySplit`: walk the characters with an accumulator holding the
current (reversed) word. -/
def pySplitAux : List Char → List Char → List String
  | [], [] => []
  | [], acc => [String.mk acc.reverse]
  | c :: cs, acc =>
    if pyIsSpace c then
      match acc with
      | [] => pySplitAux cs []
      | _ :: _ => String.mk acc.reverse :: pySplitAux cs []
    else pySplitAux cs (c :: acc)

/-- Python `s.split()` with no argument: split on runs of whitespace,
discarding empty pieces. -/
def pySplit (s : String) : List String := pySplitAux s.data []

/-- Python `str(b)` for a `bool`. -/
def pyBoolStr (b : Bool) : String := if b then "True" else "False"

/-! ### SHA-256 (`hashlib.sha256(raw.encode()).hexdigest()`)

An executable SHA-256 over byte lists, bytes and 32-bit words both
represented as `Nat` with explicit reduction modulo `2 ^ 32`. -/

/-- Truncate to a 32-bit word. -/
def w32 (x : Nat) : Nat := x % 4294967296

/-- Rotate a 32-bit word right by n. -/
def rotr (n x : Nat) : Nat := w32 ((x >>> n) ||| (x <<< (32 - n)))

def bsig0 (x : Nat) : Nat := (rotr 2 x) ^^^ (rotr 13 x) ^^^ (rotr 22 x)

def bsig1 (x : Nat) : Nat := (rotr 6 x) ^^^ (rotr 11 x) ^^^ (rotr 25 x)

def ssig0 (x : Nat) : Nat := (rotr 7 x) ^^^ (rotr 18 x) ^^^ (x >>> 3)

def ssig1 (x : Nat) : Nat := (rotr 17 x) ^^^ (rotr 19 x) ^^^ (x >>> 10)

/-- The 64 SHA-256 round constants, written in decimal. -/
def sha256K : List Nat :=
  [1116352408, 1899447441, 3049323471, 3921009573,
   961987163, 1508970993, 2453635748, 2870763221,
   3624381080, 310598401, 607225278, 1426881987,
   1925078388, 2162078206, 2614888103, 3248222580,
   3835390401, 4022224774, 264347078, 604807628,
   770255983, 1249150122, 1555081692, 1996064986,
   2554220882, 2821834349, 2952996808, 3210313671,
   3336571891, 3584528711, 113926993, 338241895,
   666307205, 773529912, 1294757372, 1396182291,
   1695183700, 1986661051, 2177026350, 2456956037,
   2730485921, 2820302411, 3259730800, 3345764771,
   3516065817, 3600352804, 4094571909, 275423344,
   430227734, 506948616, 659060556, 883997877,
   958139571, 1322822218, 1537002063, 1747873779,
   1955562222, 2024104815, 2227730452, 2361852424,
   2428436474, 2756734187, 3204031479, 3329325298]

/-- The SHA-256 initial hash value, written in decimal. -/
def sha256H0 : List Nat :=
  [1779033703, 3144134277, 1013904242, 2773480762,
   1359893119, 2600822924, 528734635, 1541459225]

/-- Split a byte list into 64-byte chunks (the padded message length is a
multiple of 64). -/
def chunks64 (l : List Nat) : List (List Nat) :=
  let st := l.foldl
    (fun (p : List (List Nat) × List Nat) b =>
      let cur := p.2 ++ [b]
      if cur.length = 64 then (p.1 ++ [cur], []) else (p.1, cur))
    ([], [])
  st.1 ++ (if st.2 = [] then [] else [st.2])

/-- Big-endian assembly of 4-byte groups into 32-bit words. -/
def bytesToWords : List Nat → List Nat
  | b0 :: b1 :: b2 :: b3 :: rest =>
      (b0 * 16777216 + b1 * 65536 + b2 * 256 + b3) :: bytesToWords rest
  | _ => []

/-- Message-schedule extension from 16 to 64 words. -/
def msgSchedule (w16 : List Nat) : Array Nat :=
  (List.range 48).foldl
    (fun w i =>
      let t := i + 16
      w.push (w32 (ssig1 (w.getD (t - 2) 0) + w.getD (t - 7) 0 +
        ssig0 (w.getD (t - 15) 0) + w.getD (t - 16) 0)))
    w16.toArray

/-- The eight working registers of the SHA-256 compression function. -/
abbrev Sha8 := Nat × Nat × Nat × Nat × Nat × Nat × Nat × Nat

/-- One round of the compression function. -/
def compressStep (s : Sha8) (kw : Nat × Nat) : Sha8 :=
  let (a, b, c, d, e, f, g, h) := s
  let ch := ((e &&& f) ^^^ (g &&& (e ^^^ 4294967295)))
  let maj := (((a &&& b) ^^^ (a &&& c)) ^^^ (b &&& c))
  let t1 := w32 (h + bsig1 e + ch + kw.1 + kw.2)
  let t2 := w32 (bsig0 a + maj)
  (w32 (t1 + t2), a, b, c, w32 (d + t1), e, f, g)

/-- Process one 64-byte chunk. -/
def compressChunk (hs : List Nat) (chunk : List Nat) : List Nat :=
  let ws := msgSchedule (bytesToWords chunk)
  let init : Sha8 :=
    (hs.getD 0 0, hs.getD 1 0, hs.getD 2 0, hs.getD 3 0,
     hs.getD 4 0, hs.getD 5 0, hs.getD 6 0, hs.getD 7 0)
  let (a, b, c, d, e, f, g, h) := (sha256K.zip ws.toList).foldl compressStep init
  [w32 (hs.getD 0 0 + a), w32 (hs.getD 1 0 + b), w32 (hs.getD 2 0 + c), w32 (hs.getD 3 0 + d),
   w32 (hs.getD 4 0 + e), w32 (hs.getD 5 0 + f), w32 (hs.getD 6 0 + g), w32 (hs.getD 7 0 + h)]

/-- SHA-256 padding: byte `0x80`, zero bytes, then the 64-bit big-endian bit
length. -/
def sha256pad (msg : List Nat) : List Nat :=
  let len := msg.length
  let k := (119 - len % 64) % 64
  let bitLen := len * 8
  msg ++ [128] ++ List.replicate k 0 ++
    [bitLen / 72057594037927936 % 256, bitLen / 281474976710656 % 256,
     bitLen / 1099511627776 % 256, bitLen / 4294967296 % 256,
     bitLen / 16777216 % 256, bitLen / 65536 % 256, bitLen / 256 % 256, bitLen % 256]

/-- The eight 32-bit words of the SHA-256 digest of a byte list. -/
def sha256words (msg : List Nat) : List Nat :=
  (chunks64 (sha256pad msg)).foldl compressChunk sha256H0

/-- Lower-case hexadecimal digit. -/
def hexDigit (n : Nat) : Char := if n < 10 then Char.ofNat (48 + n) else Char.ofNat (87 + n)

/-- Render one 32-bit word as 8 hexadecimal characters. -/
def wordToHex (w : Nat) : List Char :=
  [hexDigit (w / 268435456 % 16), hexDigit (w / 16777216 % 16), hexDigit (w / 1048576 % 16),
   hexDigit (w / 65536 % 16), hexDigit (w / 4096 % 16), hexDigit (w / 256 % 16),
   hexDigit (w / 16 % 16), hexDigit (w % 16)]

/-- UTF-8 encoding of a character as a list of byte values (Python
`s.encode()`). -/
def utf8Bytes (c : Char) : List Nat :=
  let n := c.toNat
  if n < 128 then [n]
  else if n < 2048 then [192 + n / 64, 128 + n % 64]
  else if n < 65536 then [224 + n / 4096, 128 + n / 64 % 64, 128 + n % 64]
  else [240 + n / 262144, 128 + n / 4096 % 64, 128 + n / 64 % 64, 128 + n % 64]

/-- UTF-8 bytes of a string. -/
def strBytes (s : String) : List Nat := (s.data.map utf8Bytes).flatten

/-- Model of Python `hashlib.sha256(s.encode()).hexdigest()`. -/
def sha256hex (s : String) : String :=
  String.mk (((sha256words (strBytes s)).map wordToHex).flatten)

/-- Sanity anchor: the FIPS 180-4 test vector for "abc". -/
theorem sha256hex_abc :
    sha256hex "abc" = "ba7816bf8f01cfea414140de5dae2223b00361a396177a9cb410ff61f20015ad" := by
  decide

/-- Sanity anchor: the digest of the empty string. -/
theorem sha256hex_empty :
    sha256hex "" = "e3b0c44298fc1c149afbf4c8996fb92427ae41e4649b934ca495991b7852b855" := by
  decide

/-! ### Data model (`shared/schemas/models.py`) -/

/-- Enum `DifficultyLevel`. -/
inductive DifficultyLevel
  | BEGINNER
  | INTERMEDIATE
  | ADVANCED
deriving DecidableEq, Repr

/-- Enum `QuestionType`. -/
inductive QuestionType
  | CONCEPTUAL
  | PRACTICAL
  | MATHEMATICAL
  | MIXED
deriving DecidableEq, Repr

/-- Pydantic model `IntentAnalysis`; the float `confidence` is modelled as a
rational. -/
structure IntentAnalysis where
  difficulty_level : DifficultyLevel
  question_type : QuestionType
  requires_visuals : Bool
  requires_math : Bool
  requires_code : Bool
  key_concepts : List String
  confidence : ℚ
deriving DecidableEq, Repr

/-- Pydantic model `SearchResult`; the float `score` is modelled as a
rational. -/
structure SearchResult where
  title : String
  url : String
  content : String
  score : ℚ
  images : List String
deriving DecidableEq, Repr

/-! ### `search_router.py`: SearchComplexity, SearchPlan, domain lists -/

/-- Enum `SearchComplexity`. -/
inductive SearchComplexity
  | SIMPLE
  | MODERATE
  | COMPLEX
deriving DecidableEq, Repr

/-- Dataclass `SearchPlan` (the dataclass defaults are spelled out at every
construction site). -/
structure SearchPlan where
  complexity : SearchComplexity
  search_depth : String
  max_results : Nat
  num_queries : Nat
  include_raw_content : Bool
  include_images : Bool
  include_answer : Bool
  include_domains : List String
  exclude_domains : List String
  topic : String
  time_range : Option String
  context_budget_chars : Nat
deriving DecidableEq, Repr

/-- Method `SearchPlan.estimated_cost_weight`. -/
def SearchPlan.estimated_cost_weight (p : SearchPlan) : ℚ :=
  let w : ℚ := 1
  let w := if p.search_depth = "advanced" then w * 2 else w
  let w := w * p.num_queries
  if p.include_raw_content then w * (15 / 10) else w

def TRUSTED_EDUCATIONAL_DOMAINS : List String :=
  ["wikipedia.org", "khanacademy.org", "brilliant.org",
   "geeksforgeeks.org", "stackoverflow.com", "mathworld.wolfram.com",
   "docs.python.org", "developer.mozilla.org", "w3schools.com",
   "tutorialspoint.com", "arxiv.org", "nature.com", "sciencedirect.com",
   "medium.com", "towardsdatascience.com", "realpython.com",
   "freecodecamp.org", "coursera.org", "mit.edu", "stanford.edu"]

def LOW_QUALITY_DOMAINS : List String :=
  ["pinterest.com", "quora.com", "tiktok.com",
   "facebook.com", "instagram.com", "twitter.com"]

/-! ### `search_router.py`: SearchCache

The Python store is `Dict[str, Tuple[float, object]]`; dicts iterate in
insertion order, so the store is modelled as an association list of
`(key, timestamp, data)` triples, timestamps as `Int`. -/

/-- Python `d.get(k)` on the store dict: first binding of the key. -/
def dictGet {α : Type} (store : List (String × Int × α)) (k : String) : Option (Int × α) :=
  (store.find? (fun e => e.1 == k)).map (fun e => e.2)

/-- Python `d[k] = v` on the store dict: update the existing binding in place (the
key keeps its position in insertion order) or append a new one. -/
def dictSet {α : Type} : List (String × Int × α) → String → Int × α → List (String × Int × α)
  | [], k, v => [(k, v)]
  | e :: rest, k, v => if e.1 == k then (k, v) :: rest else e :: dictSet rest k v

/-- Python `del d[k]` on the store dict (callers only delete present keys). -/
def dictDel {α : Type} (store : List (String × Int × α)) (k : String) : List (String × Int × α) :=
  store.eraseP (fun e => e.1 == k)

/-- Python `min(self._store, key=lambda k: self._store[k][0])`: the key of the
entry with the smallest timestamp, the earliest such entry in iteration
order winning ties; `none` on an empty dict (Python raises `ValueError`). -/
def oldestKey {α : Type} (store : List (String × Int × α)) : Option String :=
  match store with
  | [] => none
  | e :: rest =>
    some ((rest.foldl (fun best cur => if cur.2.1 < best.2.1 then cur else best) e).1)

/-- Class `SearchCache`: TTL-bounded, size-bounded in-memory cache. -/
structure SearchCache (α : Type) where
  store : List (String × Int × α)
  ttl : Int
  maxSize : Nat
deriving DecidableEq, Repr

/-- Method `SearchCache._make_key`: sha256 hex digest of
`f"{query.strip().lower()}|{depth}|{max_results}|{include_raw}"`. -/
def SearchCache.make_key (query depth : String) (max_results : Nat) (include_raw : Bool) : String :=
  sha256hex (pyLower (pyStrip query) ++ "|" ++ depth ++ "|" ++ toString max_results
    ++ "|" ++ pyBoolStr include_raw)

/-- Method `SearchCache.get`.  The wall clock read `time.time()` is passed in as
`now`; the returned pair is (result, cache after the call), the state
changing exactly when an expired entry is deleted. -/
def SearchCache.get {α : Type} (c : SearchCache α) (query depth : String)
    (max_results : Nat) (include_raw : Bool) (now : Int) : Option α × SearchCache α :=
  let key := SearchCache.make_key query depth max_results include_raw
  match dictGet c.store key with
  | none => (none, c)
  | some (ts, data) =>
    if c.ttl < now - ts then (none, { c with store := dictDel c.store key })
    else (some data, c)

/-- Method `SearchCache.put`.  Returns `none` when the eviction scan raises
(`min` over an empty dict, possible only with `maxSize = 0`), mirroring the
`ValueError` Python would raise; otherwise the updated cache. -/
def SearchCache.put {α : Type} (c : SearchCache α) (query depth : String)
    (max_results : Nat) (include_raw : Bool) (now : Int) (data : α) :
    Option (SearchCache α) :=
  let evicted : Option (List (String × Int × α)) :=
    if c.maxSize ≤ c.store.length then
      match oldestKey c.store with
      | none => none
      | some ok => some (dictDel c.store ok)
    else some c.store
  match evicted with
  | none => none
  | some s =>
    let key := SearchCache.make_key query depth max_results include_raw
    some { c with store := dictSet s key (now, data) }

/-- Method `SearchCache.clear`. -/
def SearchCache.clear {α : Type} (c : SearchCache α) : SearchCache α :=
  { c with store := [] }

/-! ### `search_router.py`: SearchRouter -/

/-- Method `SearchRouter._classify_complexity`: heuristic complexity bucketing. -/
def SearchRouter.classify_complexity (intent : Option IntentAnalysis) (query : String) :
    SearchComplexity :=
  match intent with
  | none => SearchComplexity.MODERATE
  | some intent =>
    if (0.75 : ℚ) ≤ intent.confidence
        ∧ intent.difficulty_level = DifficultyLevel.BEGINNER
        ∧ (intent.question_type = QuestionType.CONCEPTUAL
           ∨ intent.question_type = QuestionType.PRACTICAL)
        ∧ intent.key_concepts.length ≤ 2
        ∧ (pySplit query).length ≤ 15 then
      SearchComplexity.SIMPLE
    else if intent.difficulty_level = DifficultyLevel.ADVANCED
        ∨ intent.question_type = QuestionType.MATHEMATICAL
        ∨ (intent.requires_math = true ∧ intent.requires_code = true)
        ∨ 5 ≤ intent.key_concepts.length
        ∨ 40 < (pySplit query).length then
      SearchComplexity.COMPLEX
    else SearchComplexity.MODERATE

/-- Method `SearchRouter._select_domains`. -/
def SearchRouter.select_domains (intent : Option IntentAnalysis) : List String × List String :=
  let exclude := LOW_QUALITY_DOMAINS
  match intent with
  | some i =>
    if i.requires_code then ([], exclude)
    else if i.question_type = QuestionType.MATHEMATICAL then ([], exclude)
    else ([], exclude)
  | none => ([], exclude)

/-- Method `SearchRouter.plan`: produce a `SearchPlan` for the given query and
intent. -/
def SearchRouter.plan (query : String) (intent : Option IntentAnalysis)
    (force_images : Bool) : SearchPlan :=
  let complexity := SearchRouter.classify_complexity intent query
  let dom := SearchRouter.select_domains intent
  let needs_images := force_images ||
    (match intent with | some i => i.requires_visuals | none => true)
  match complexity with
  | SearchComplexity.SIMPLE =>
    { complexity := SearchComplexity.SIMPLE, search_depth := "basic",
      max_results := 3, num_queries := 1, include_raw_content := false,
      include_images := needs_images, include_answer := true,
      include_domains := dom.1, exclude_domains := dom.2,
      topic := "general", time_range := none, context_budget_chars := 4000 }
  | SearchComplexity.MODERATE =>
    { complexity := SearchComplexity.MODERATE, search_depth := "basic",
      max_results := 5, num_queries := 2, include_raw_content := false,
      include_images := needs_images, include_answer := true,
      include_domains := dom.1, exclude_domains := dom.2,
      topic := "general", time_range := none, context_budget_chars := 6000 }
  | SearchComplexity.COMPLEX =>
    { complexity := SearchComplexity.COMPLEX, search_depth := "advanced",
      max_results := 7, num_queries := 3, include_raw_content := true,
      include_images := needs_images, include_answer := true,
      include_domains := dom.1, exclude_domains := dom.2,
      topic := "general", time_range := none, context_budget_chars := 12000 }

/-- The candidate query list built by `SearchRouter.generate_queries` before
de-duplication (the `queries` local of the Python function). -/
def SearchRouter.candidateQueries (original_question : String)
    (intent : Option IntentAnalysis) (plan : SearchPlan) : List String :=
  let concepts := match intent with | some i => i.key_concepts | none => []
  if plan.num_queries = 1 then
    [original_question]
  else if plan.num_queries = 2 then
    [original_question,
     if concepts ≠ [] then
       String.intercalate " " (concepts.take 3) ++ " explained with examples"
     else original_question ++ " tutorial explanation"]
  else
    [original_question,
     if concepts ≠ [] then
       String.intercalate " " (concepts.take 2) ++ " in-depth explanation"
     else original_question ++ " detailed explanation",
     if (match intent with | some i => i.requires_math | none => false) then
       original_question ++ " formula derivation proof"
     else if (match intent with | some i => i.requires_code | none => false) then
       original_question ++ " code implementation example"
     else if (match intent with | some i => i.requires_visuals | none => false) then
       original_question ++ " diagram visual illustration"
     else original_question ++ " examples applications"]

/-- Python `q.strip().lower()`, the normalisation used for query de-duplication. -/
def normalised (q : String) : String := pyLower (pyStrip q)

/-- The de-duplication loop of `generate_queries`: keep the first occurrence
of each normalised form, preserving order (`seen` is the set of normalised
forms already kept). -/
def dedupQueriesAux (seen : List String) : List String → List String
  | [] => []
  | q :: rest =>
    if normalised q ∈ seen then dedupQueriesAux seen rest
    else q :: dedupQueriesAux (normalised q :: seen) rest

/-- Method `SearchRouter.generate_queries`. -/
def SearchRouter.generate_queries (original_question : String)
    (intent : Option IntentAnalysis) (plan : SearchPlan) : List String :=
  (dedupQueriesAux [] (SearchRouter.candidateQueries original_question intent plan)).take
    plan.num_queries

/-! ### `search_agent.py`: WebSearchAgent.search

The provider (Tavily) response is an input of the model: `Except.error`
stands for any exception raised by the client call, `Except.ok` for the
parsed JSON.  The per-item `dict.get` accesses are modelled with `Option`
fields and their defaults. -/

/-- One entry of `response["results"]`. -/
structure TavilyItem where
  title : Option String
  url : Option String
  content : Option String
  score : Option ℚ
  raw_content : Option String
deriving DecidableEq, Repr

/-- The provider response: `response.get("results", [])` and
`response.get("images", [])`. -/
structure TavilyResponse where
  results : List TavilyItem
  images : List String
deriving DecidableEq, Repr

/-- The two fields of `config.settings` the search agent reads. -/
structure Settings where
  max_search_results : Nat
  max_images_per_response : Nat
deriving DecidableEq, Repr

/-- The default `config.settings` values (`max_search_results = 5`,
`max_images_per_response = 6`). -/
def defaultSettings : Settings := { max_search_results := 5, max_images_per_response := 6 }

/-- Parameter resolution of `WebSearchAgent.search` (lines 50–58): each
tunable comes from the plan when one is supplied, else from the legacy
keyword arguments / conservative defaults. -/
def planDepth (plan : Option SearchPlan) (search_depth : String) : String :=
  match plan with | some p => p.search_depth | none => search_depth

def planMaxResults (stg : Settings) (plan : Option SearchPlan) : Nat :=
  match plan with | some p => p.max_results | none => min stg.max_search_results 5

def planRawContent (plan : Option SearchPlan) : Bool :=
  match plan with | some p => p.include_raw_content | none => false

def planImages (plan : Option SearchPlan) (include_images : Bool) : Bool :=
  match plan with | some p => p.include_images | none => include_images

def planContextBudget (plan : Option SearchPlan) : Nat :=
  match plan with | some p => p.context_budget_chars | none => 6000

/-- The result-parsing loop of `WebSearchAgent.search` (lines 93–110): build
one `SearchResult` per response item, preferring a longer raw body truncated
to the context budget when raw content was requested. -/
def parseResults (raw_content : Bool) (context_budget : Nat)
    (items : List TavilyItem) : List SearchResult :=
  items.map (fun item =>
    let content := item.content.getD ""
    let content :=
      if raw_content = true ∧ (item.raw_content.getD "") ≠ ""
          ∧ content.length < (item.raw_content.getD "").length then
        (item.raw_content.getD "").take context_budget
      else content
    { title := item.title.getD "", url := item.url.getD "", content := content,
      score := item.score.getD (0.5 : ℚ), images := [] })

/-- Attach the provider images to the first parsed result (lines 113–115). -/
def attachImages (stg : Settings) (images : Bool) (tavily_images : List String)
    (results : List SearchResult) : List SearchResult :=
  if images = true ∧ tavily_images ≠ [] ∧ results ≠ [] then
    match results with
    | [] => results
    | f :: rest => { f with images := tavily_images.take stg.max_images_per_response } :: rest
  else results

/-- Method `WebSearchAgent.search` (value semantics).  `plan` drives the effective
parameters, the legacy keyword arguments `search_depth` / `include_images`
are used when it is absent; the wall clock is passed as `now` (both
`time.time()` reads inside one call are modelled as the same instant), the
provider call outcome as `provider`.  Parameters that are only forwarded to
the provider (answer flag, domain filters, topic) do not influence the
result and are not resolved here.  A `put` that raises (`none`) is caught by
the surrounding `except` block, which returns the empty list. -/
def WebSearchAgent.search (stg : Settings) (cache : SearchCache (List SearchResult))
    (query : String) (plan : Option SearchPlan)
    (search_depth : String) (include_images : Bool)
    (now : Int) (provider : Except String TavilyResponse) :
    List SearchResult × SearchCache (List SearchResult) :=
  let depth := planDepth plan search_depth
  let max_results := planMaxResults stg plan
  let raw_content := planRawContent plan
  let images := planImages plan include_images
  let context_budget := planContextBudget plan
  let got := SearchCache.get cache query depth max_results raw_content now
  match got.1 with
  | some data => (data, got.2)
  | none =>
    match provider with
    | Except.error _ => ([], got.2)
    | Except.ok response =>
      let results := parseResults raw_content context_budget response.results
      let results := attachImages stg images response.images results
      match SearchCache.put got.2 query depth max_results raw_content now results with
      | none => ([], got.2)
      | some cache2 => (results, cache2)

/-! ### `search_agent.py`: WebSearchAgent.multi_query_search (combination
logic)

`multi_query_search` awaits `self.search` once per effective query and then
combines the per-query result lists; the combination logic (lines 148–186)
is modelled as a function of those per-query lists.  The full composition
through `search` and the shared cache is modelled separately below with
reference semantics. -/

/-- The state threaded through the result loop of `multi_query_search`:
`(all_results, seen_urls, all_image_urls, seen_image_urls)`, the two `set`s
modelled as lists of the added elements. -/
structure MultiState where
  all_results : List SearchResult
  seen_urls : List String
  all_image_urls : List String
  seen_image_urls : List String
deriving DecidableEq, Repr

/-- Python `img_url.lower().split("?")[0]`: the image-URL normalisation — the
lower-cased URL up to (excluding) its first `?`, the whole lower-cased URL
when it has none. -/
def normUrl (u : String) : String :=
  String.mk ((pyLower u).data.takeWhile (fun c => c ≠ '?'))

/-- The inner image loop (lines 157–161): pool an image URL unless its
normalised form was already seen. -/
def imagePoolStep (p : List String × List String) (img_url : String) :
    List String × List String :=
  let norm := normUrl img_url
  if norm ∈ p.2 then p else (p.1 ++ [img_url], norm :: p.2)

/-- One iteration of the result loop (lines 155–165): pool the result's
images first, then URL-deduplicate the result itself. -/
def collectResult (st : MultiState) (result : SearchResult) : MultiState :=
  let imgs := result.images.foldl imagePoolStep (st.all_image_urls, st.seen_image_urls)
  if result.url ∈ st.seen_urls then
    { st with all_image_urls := imgs.1, seen_image_urls := imgs.2 }
  else
    { all_results := st.all_results ++ [result],
      seen_urls := result.url :: st.seen_urls,
      all_image_urls := imgs.1, seen_image_urls := imgs.2 }

/-- The double loop over per-query result lists (lines 153–165). -/
def multiFold (resultLists : List (List SearchResult)) : MultiState :=
  resultLists.foldl (fun st results => results.foldl collectResult st)
    { all_results := [], seen_urls := [], all_image_urls := [], seen_image_urls := [] }

/-- The image pool `all_image_urls` accumulated across all per-query
results. -/
def pooledImages (resultLists : List (List SearchResult)) : List String :=
  (multiFold resultLists).all_image_urls

/-- Stable insertion (before the first strictly smaller score), the building
block of a stable descending sort. -/
def insertDesc (x : SearchResult) : List SearchResult → List SearchResult
  | [] => [x]
  | y :: ys => if y.score < x.score then x :: y :: ys else y :: insertDesc x ys

/-- Python `all_results.sort(key=lambda x: x.score, reverse=True)`: Python's sort
is stable, and a stable descending sort is uniquely determined by the key,
so a stable insertion sort models it exactly. -/
def sortByScoreDesc (l : List SearchResult) : List SearchResult :=
  l.foldl (fun acc x => insertDesc x acc) []

/-- The score-sorted, capped result list of `multi_query_search`
(lines 168–172); `cap` is `plan.max_results` or the settings default. -/
def topResults (resultLists : List (List SearchResult)) (cap : Nat) : List SearchResult :=
  (sortByScoreDesc (multiFold resultLists).all_results).take cap

/-- The image-merge loop (lines 176–180): append each pooled URL whose
normalised form is not in `existing`, growing `existing` as it goes. -/
def mergeImagesLoop (images existing : List String) : List String → List String
  | [] => images
  | img_url :: rest =>
    if normUrl img_url ∈ existing then mergeImagesLoop images existing rest
    else mergeImagesLoop (images ++ [img_url]) (normUrl img_url :: existing) rest

/-- Method `WebSearchAgent.multi_query_search` (lines 148–186) as a function of the
per-query `search` outputs: combine, URL-deduplicate, sort by score, cap,
and merge the pooled images onto the first result. -/
def WebSearchAgent.multi_query_search (resultLists : List (List SearchResult))
    (cap : Nat) : List SearchResult :=
  let st := multiFold resultLists
  let top_results := (sortByScoreDesc st.all_results).take cap
  if st.all_image_urls ≠ [] ∧ top_results ≠ [] then
    match top_results with
    | [] => top_results
    | first :: rest =>
      { first with
        images := mergeImagesLoop first.images (first.images.map normUrl)
          st.all_image_urls } :: rest
  else top_results

/-- First-seen de-duplication of image URLs by normalised form, written
directly (the specification the pooled list is compared against). -/
def dedupImagesByNorm (seen : List String) : List String → List String
  | [] => []
  | u :: rest =>
    if normUrl u ∈ seen then dedupImagesByNorm seen rest
    else u :: dedupImagesByNorm (normUrl u :: seen) rest

/-! ### Reference-semantics model of the agent

`search` stores in the cache the very list of `SearchResult` objects it
returns, and `multi_query_search` appends to `top_results[0].images` in
place, so the mutable `images` list of each result is modelled as a heap
cell: a `SearchResultRef` carries the index of its cell, `AgentState`
carries the heap together with the shared cache, and Python aliasing is
index sharing. -/

/-- A `SearchResult` object whose mutable `images` list lives in a heap
cell. -/
structure SearchResultRef where
  title : String
  url : String
  content : String
  score : ℚ
  imagesRef : Nat
deriving DecidableEq, Repr

/-- Read a heap cell. -/
def heapGet (heap : List (List String)) (r : Nat) : List String := heap.getD r []

/-- Overwrite a heap cell. -/
def heapSet (heap : List (List String)) (r : Nat) (v : List String) : List (List String) :=
  heap.set r v

/-- The process state shared by all agent calls: the heap of `images` cells
and the singleton `SearchCache`. -/
structure AgentState where
  heap : List (List String)
  cache : SearchCache (List SearchResultRef)
deriving DecidableEq, Repr

/-- The result-parsing loop of `search` with reference semantics: each
parsed result allocates a fresh `images` cell (initially `[]`). -/
def parseResultsRef (raw_content : Bool) (context_budget : Nat)
    (items : List TavilyItem) (heap : List (List String)) :
    List SearchResultRef × List (List String) :=
  items.foldl
    (fun (p : List SearchResultRef × List (List String)) item =>
      let content := item.content.getD ""
      let content :=
        if raw_content = true ∧ (item.raw_content.getD "") ≠ ""
            ∧ content.length < (item.raw_content.getD "").length then
          (item.raw_content.getD "").take context_budget
        else content
      (p.1 ++ [{ title := item.title.getD "", url := item.url.getD "",
                 content := content, score := item.score.getD (0.5 : ℚ),
                 imagesRef := p.2.length }],
       p.2 ++ [[]]))
    ([], heap)

/-- Method `WebSearchAgent.search` with reference semantics.  Same control flow as
the value model; `results[0].images = tavily_images[:...]` writes the first
result's heap cell, and the cache stores the returned list of references
itself. -/
def WebSearchAgent.searchRef (stg : Settings) (st : AgentState)
    (query : String) (plan : Option SearchPlan)
    (search_depth : String) (include_images : Bool)
    (now : Int) (provider : Except String TavilyResponse) :
    List SearchResultRef × AgentState :=
  let depth := planDepth plan search_depth
  let max_results := planMaxResults stg plan
  let raw_content := planRawContent plan
  let images := planImages plan include_images
  let context_budget := planContextBudget plan
  let got := SearchCache.get st.cache query depth max_results raw_content now
  match got.1 with
  | some data => (data, { st with cache := got.2 })
  | none =>
    match provider with
    | Except.error _ => ([], { st with cache := got.2 })
    | Except.ok response =>
      let parsed := parseResultsRef raw_content context_budget response.results st.heap
      let results := parsed.1
      let heap1 :=
        if images = true ∧ response.images ≠ [] ∧ results ≠ [] then
          match results with
          | [] => parsed.2
          | f :: _ =>
            heapSet parsed.2 f.imagesRef (response.images.take stg.max_images_per_response)
        else parsed.2
      match SearchCache.put got.2 query depth max_results raw_content now results with
      | none => ([], { heap := heap1, cache := got.2 })
      | some cache2 => (results, { heap := heap1, cache := cache2 })

/-- The result loop of `multi_query_search` with reference semantics; the
pooled images are read through the heap. -/
def collectResultRef (heap : List (List String)) (st : List SearchResultRef × List String × List String × List String)
    (result : SearchResultRef) : List SearchResultRef × List String × List String × List String :=
  let imgs := (heapGet heap result.imagesRef).foldl imagePoolStep (st.2.2.1, st.2.2.2)
  if result.url ∈ st.2.1 then
    (st.1, st.2.1, imgs.1, imgs.2)
  else
    (st.1 ++ [result], result.url :: st.2.1, imgs.1, imgs.2)

/-- Stable insertion for references, as in `insertDesc`. -/
def insertDescRef (x : SearchResultRef) : List SearchResultRef → List SearchResultRef
  | [] => [x]
  | y :: ys => if y.score < x.score then x :: y :: ys else y :: insertDescRef x ys

/-- Stable descending sort by score for references. -/
def sortByScoreDescRef (l : List SearchResultRef) : List SearchResultRef :=
  l.foldl (fun acc x => insertDescRef x acc) []

/-- Method `WebSearchAgent.multi_query_search` with reference semantics: execute
the effective queries sequentially through `searchRef` (consuming one
scripted provider outcome per executed query), combine and deduplicate, and
append the pooled images to the first top result's heap cell in place. -/
def WebSearchAgent.multiQueryRef (stg : Settings) (st : AgentState)
    (queries : List String) (plan : Option SearchPlan) (now : Int)
    (providers : List (Except String TavilyResponse)) :
    List SearchResultRef × AgentState :=
  let max_queries := match plan with | some p => p.num_queries | none => queries.length
  let effective_queries := queries.take max_queries
  let run := effective_queries.foldl
    (fun (acc : AgentState × List (List SearchResultRef) × List (Except String TavilyResponse)) query =>
      let provider := acc.2.2.headD (Except.error "no scripted response")
      let r := WebSearchAgent.searchRef stg acc.1 query plan "basic" true now provider
      (r.2, acc.2.1 ++ [r.1], acc.2.2.tail))
    (st, [], providers)
  let st1 := run.1
  let folded := run.2.1.foldl
    (fun acc results => results.foldl (collectResultRef st1.heap) acc) ([], [], [], [])
  let all_results := folded.1
  let all_image_urls := folded.2.2.1
  let top_results := (sortByScoreDescRef all_results).take
    (match plan with | some p => p.max_results | none => stg.max_search_results)
  if all_image_urls ≠ [] ∧ top_results ≠ [] then
    match top_results with
    | [] => (top_results, st1)
    | first :: _ =>
      let existing := heapGet st1.heap first.imagesRef
      let newHeap := heapSet st1.heap first.imagesRef
        (mergeImagesLoop existing (existing.map normUrl) all_image_urls)
      (top_results, { st1 with heap := newHeap })
  else (top_results, st1)

/-! ## Claims -/

/-! ### C1: the cache key derivation -/

/-- The cache key as claim C1 words it: the sha256 hex digest of
`"query|depth|max_results|include_raw"` in which EACH component is
lowercased and stripped of surrounding whitespace. -/
def make_key_claimed (query depth : String) (max_results : Nat) (include_raw : Bool) : String :=
  sha256hex (pyLower (pyStrip query) ++ "|" ++ pyLower (pyStrip depth) ++ "|"
    ++ pyLower (pyStrip (toString max_results)) ++ "|" ++ pyLower (pyStrip (pyBoolStr include_raw)))

/-- The cache key as amended: only the query component is lowercased and
stripped; depth is used verbatim, max_results in decimal, and include_raw
rendered as Python renders a bool, `"True"` / `"False"`. -/
def make_key_amended (query depth : String) (max_results : Nat) (include_raw : Bool) : String :=
  sha256hex (pyLower (pyStrip query) ++ "|" ++ depth ++ "|" ++ toString max_results ++ "|"
    ++ (if include_raw then "True" else "False"))

/-- C1 counterexample: with `include_raw = True` the code hashes the
component `"True"`, not its lowercased form `"true"`, so the key differs
from the claimed digest already on an all-lowercase query and depth. -/
theorem claim_C1_counterexample :
    SearchCache.make_key "what is gravity" "basic" 3 true ≠
      make_key_claimed "what is gravity" "basic" 3 true := by
  decide

/-- C1 (amended): for every query string, depth string, max_results and
include_raw boolean, the cache key computed by SearchCache (used
identically by get and put) is the sha256 hex digest of
`"query|depth|max_results|include_raw"` in which only the query component
is lowercased and stripped of surrounding whitespace, the depth is used
verbatim, max_results is rendered in decimal and include_raw as `"True"` /
`"False"`. -/
theorem claim_C1 (query depth : String) (max_results : Nat) (include_raw : Bool) :
    SearchCache.make_key query depth max_results include_raw =
      make_key_amended query depth max_results include_raw := by
  cases include_raw <;> rfl

/-! ### C4, C5: complexity classification -/

/-- C4: every intent with confidence ≥ 0.75, difficulty BEGINNER, question
type CONCEPTUAL or PRACTICAL and at most 2 key concepts, paired with a
query of at most 15 whitespace-separated words, classifies as SIMPLE. -/
theorem claim_C4 (intent : IntentAnalysis) (query : String)
    (h1 : (0.75 : ℚ) ≤ intent.confidence)
    (h2 : intent.difficulty_level = DifficultyLevel.BEGINNER)
    (h3 : intent.question_type = QuestionType.CONCEPTUAL
          ∨ intent.question_type = QuestionType.PRACTICAL)
    (h4 : intent.key_concepts.length ≤ 2)
    (h5 : (pySplit query).length ≤ 15) :
    SearchRouter.classify_complexity (some intent) query = SearchComplexity.SIMPLE := by
  unfold SearchRouter.classify_complexity
  dsimp only
  rw [if_pos ⟨h1, h2, h3, h4, h5⟩]

/-- A concrete beginner intent instantiating C4. -/
def c4Intent : IntentAnalysis :=
  { difficulty_level := DifficultyLevel.BEGINNER,
    question_type := QuestionType.CONCEPTUAL,
    requires_visuals := true, requires_math := false, requires_code := false,
    key_concepts := ["gravity"], confidence := 0.9 }

/-- Witness for C4 at a concrete intent and query. -/
theorem claim_C4_witness :
    SearchRouter.classify_complexity (some c4Intent) "what is gravity" =
      SearchComplexity.SIMPLE :=
  claim_C4 c4Intent "what is gravity" (by norm_num [c4Intent]) rfl (Or.inl rfl)
    (by decide) (by decide)

/-- C5: an ADVANCED intent always classifies as COMPLEX (the SIMPLE branch
requires BEGINNER, so it cannot fire), and a missing intent always
classifies as MODERATE. -/
theorem claim_C5 :
    (∀ (intent : IntentAnalysis) (query : String),
      intent.difficulty_level = DifficultyLevel.ADVANCED →
        SearchRouter.classify_complexity (some intent) query = SearchComplexity.COMPLEX)
    ∧ (∀ query : String,
        SearchRouter.classify_complexity none query = SearchComplexity.MODERATE) := by
  constructor
  · intro intent query h
    unfold SearchRouter.classify_complexity
    dsimp only
    rw [if_neg, if_pos (Or.inl h)]
    rintro ⟨-, hb, -⟩
    rw [h] at hb
    exact DifficultyLevel.noConfusion hb
  · intro query
    rfl

/-- A concrete advanced intent instantiating C5. -/
def c5Intent : IntentAnalysis :=
  { difficulty_level := DifficultyLevel.ADVANCED,
    question_type := QuestionType.CONCEPTUAL,
    requires_visuals := false, requires_math := false, requires_code := false,
    key_concepts := [], confidence := 0.99 }

/-- Witness for C5 at a concrete advanced intent. -/
theorem claim_C5_witness :
    SearchRouter.classify_complexity (some c5Intent) "prove the spectral theorem" =
      SearchComplexity.COMPLEX :=
  claim_C5.1 c5Intent "prove the spectral theorem" rfl

/-! ### C6: the plan presets -/

/-- C6: the plan's depth is "advanced" exactly for COMPLEX, the
(max_results, num_queries, include_raw_content, context_budget_chars)
quadruple is the preset of the classified complexity, and every plan has at
least one query, at least one result and a positive context budget. -/
theorem claim_C6 (query : String) (intent : Option IntentAnalysis) (force_images : Bool) :
    let p := SearchRouter.plan query intent force_images
    (p.search_depth = "advanced" ↔
      SearchRouter.classify_complexity intent query = SearchComplexity.COMPLEX)
    ∧ (p.max_results, p.num_queries, p.include_raw_content, p.context_budget_chars) =
        (match SearchRouter.classify_complexity intent query with
         | SearchComplexity.SIMPLE => (3, 1, false, 4000)
         | SearchComplexity.MODERATE => (5, 2, false, 6000)
         | SearchComplexity.COMPLEX => (7, 3, true, 12000))
    ∧ 1 ≤ p.num_queries ∧ 1 ≤ p.max_results ∧ 0 < p.context_budget_chars := by
  cases h : SearchRouter.classify_complexity intent query <;>
    simp [SearchRouter.plan, h]

/-! ### Association-list (dict) lemmas -/

theorem dictGet_dictSet_self {α : Type} (s : List (String × Int × α)) (k : String)
    (v : Int × α) : dictGet (dictSet s k v) k = some v := by
  induction s with
  | nil => simp [dictGet, dictSet, List.find?]
  | cons e rest ih =>
    by_cases h : e.1 == k
    · simp [dictGet, dictSet, h, List.find?]
    · simpa [dictGet, dictSet, h, List.find?] using ih

theorem dictGet_eq_none {α : Type} {s : List (String × Int × α)} {k : String}
    (h : k ∉ s.map (fun e => e.1)) : dictGet s k = none := by
  induction s with
  | nil => rfl
  | cons e rest ih =>
    simp only [List.map_cons, List.mem_cons] at h
    push_neg at h
    have he : (e.1 == k) = false := by
      simp [beq_eq_false_iff_ne]
      exact fun hk => h.1 hk.symm
    simp only [dictGet, List.find?, he] at ih ⊢
    exact ih h.2

theorem dictSet_length_le {α : Type} (s : List (String × Int × α)) (k : String)
    (v : Int × α) : (dictSet s k v).length ≤ s.length + 1 := by
  induction s with
  | nil => simp [dictSet]
  | cons e rest ih =>
    by_cases h : e.1 == k
    · simp [dictSet, h]
    · simp only [dictSet, h, Bool.false_eq_true, if_false, List.length_cons]
      omega

theorem dictSet_eq_append {α : Type} {s : List (String × Int × α)} {k : String}
    (v : Int × α) (h : k ∉ s.map (fun e => e.1)) : dictSet s k v = s ++ [(k, v)] := by
  induction s with
  | nil => rfl
  | cons e rest ih =>
    simp only [List.map_cons, List.mem_cons] at h
    push_neg at h
    have he : (e.1 == k) = false := by
      simp [beq_eq_false_iff_ne]
      exact fun hk => h.1 hk.symm
    simp [dictSet, he, ih h.2]

theorem dictDel_length {α : Type} {s : List (String × Int × α)} {k : String}
    (h : k ∈ s.map (fun e => e.1)) : (dictDel s k).length = s.length - 1 := by
  simp only [List.mem_map] at h
  obtain ⟨e, he, hk⟩ := h
  exact List.length_eraseP_of_mem he (by simp [hk])

theorem foldl_min_mem {α : Type} (rest : List (String × Int × α)) (e : String × Int × α) :
    rest.foldl (fun best cur => if cur.2.1 < best.2.1 then cur else best) e ∈ e :: rest := by
  induction rest generalizing e with
  | nil => simp
  | cons c cs ih =>
    simp only [List.foldl_cons]
    have h := ih (if c.2.1 < e.2.1 then c else e)
    rcases List.mem_cons.mp h with h1 | h1
    · rw [h1]
      by_cases hc : c.2.1 < e.2.1
      · simp [hc]
      · simp [hc]
    · simp [List.mem_cons, h1]

theorem oldestKey_mem {α : Type} {s : List (String × Int × α)} {k : String}
    (h : oldestKey s = some k) : k ∈ s.map (fun e => e.1) := by
  match s with
  | [] => exact Option.noConfusion h
  | e :: rest =>
    simp only [oldestKey, Option.some.injEq] at h
    have := foldl_min_mem rest e
    subst h
    exact List.mem_map_of_mem _ this

theorem foldl_min_of_least {α : Type} (rest : List (String × Int × α))
    (e : String × Int × α) (h : ∀ x ∈ rest, ¬ x.2.1 < e.2.1) :
    rest.foldl (fun best cur => if cur.2.1 < best.2.1 then cur else best) e = e := by
  induction rest with
  | nil => rfl
  | cons c cs ih =>
    simp only [List.foldl_cons, if_neg (h c (by simp))]
    exact ih (fun x hx => h x (by simp [hx]))

/-- The `min` over a store whose head has the strictly smallest timestamp is the
head's key. -/
theorem oldestKey_of_head_least {α : Type} (e : String × Int × α)
    (rest : List (String × Int × α)) (h : ∀ x ∈ rest, e.2.1 < x.2.1) :
    oldestKey (e :: rest) = some e.1 := by
  simp only [oldestKey, Option.some.injEq]
  rw [foldl_min_of_least rest e (fun x hx => not_lt_of_gt (h x hx))]

/-- Unfolding of a successful `put`: the new store is an in-place update /
append over the possibly evicted store, and `ttl` / `maxSize` are kept. -/
theorem put_eq_some_iff {α : Type} {c : SearchCache α} {q d : String} {m : Nat}
    {r : Bool} {t : Int} {data : α} {c' : SearchCache α}
    (h : SearchCache.put c q d m r t data = some c') :
    ∃ s : List (String × Int × α),
      ((c.maxSize ≤ c.store.length ∧ ∃ k0, oldestKey c.store = some k0 ∧ s = dictDel c.store k0)
        ∨ (¬ c.maxSize ≤ c.store.length ∧ s = c.store))
      ∧ c' = { c with store := dictSet s (SearchCache.make_key q d m r) (t, data) } := by
  unfold SearchCache.put at h
  dsimp only at h
  by_cases hsz : c.maxSize ≤ c.store.length
  · rw [if_pos hsz] at h
    cases hk : oldestKey c.store with
    | none => rw [hk] at h; exact Option.noConfusion h
    | some k0 =>
      rw [hk] at h
      cases h
      exact ⟨dictDel c.store k0, Or.inl ⟨hsz, k0, rfl, rfl⟩, rfl⟩
  · rw [if_neg hsz] at h
    cases h
    exact ⟨c.store, Or.inr ⟨hsz, rfl⟩, rfl⟩

/-- Unfolding equation for `SearchCache.get`. -/
theorem get_eq {α : Type} (c : SearchCache α) (q d : String) (m : Nat) (r : Bool)
    (now : Int) :
    SearchCache.get c q d m r now =
      match dictGet c.store (SearchCache.make_key q d m r) with
      | none => (none, c)
      | some (ts, data) =>
        if c.ttl < now - ts then
          (none, { c with store := dictDel c.store (SearchCache.make_key q d m r) })
        else (some data, c) := rfl

/-! ### C3: cache round-trip, expiry, and miss -/

/-- C3: immediately after a successful `put`, a `get` with the same
(query, depth, max_results, include_raw) at most `ttl` seconds later
returns the stored data and leaves the cache unchanged; a `get` more than
`ttl` seconds later returns `none` and deletes the entry; and a `get` whose
key is not stored returns `none` and leaves the cache unchanged. -/
theorem claim_C3 {α : Type} (c c' : SearchCache α) (q d : String) (m : Nat) (r : Bool)
    (data : α) (t t' : Int) :
    (SearchCache.put c q d m r t data = some c' →
      (t' - t ≤ c.ttl → SearchCache.get c' q d m r t' = (some data, c'))
      ∧ (c.ttl < t' - t → SearchCache.get c' q d m r t' =
          (none, { c' with store := dictDel c'.store (SearchCache.make_key q d m r) })))
    ∧ (SearchCache.make_key q d m r ∉ c.store.map (fun e => e.1) →
        SearchCache.get c q d m r t = (none, c)) := by
  constructor
  · intro hput
    obtain ⟨s, -, hc'⟩ := put_eq_some_iff hput
    have hstore : c'.store = dictSet s (SearchCache.make_key q d m r) (t, data) := by
      rw [hc']
    have httl : c'.ttl = c.ttl := by rw [hc']
    constructor
    · intro hfresh
      rw [get_eq, hstore, dictGet_dictSet_self]
      dsimp only
      rw [if_neg (by rw [httl]; exact not_lt_of_ge hfresh)]
    · intro hstale
      rw [get_eq, hstore, dictGet_dictSet_self]
      dsimp only
      rw [if_pos (by rw [httl]; exact hstale), ← hstore]
  · intro hmiss
    rw [get_eq, dictGet_eq_none hmiss]

/-- A fresh cache for the C3 witness. -/
def c3Cache : SearchCache Nat := { store := [], ttl := 3600, maxSize := 256 }

/-- The cache after putting data `7` under query "a" at time 0. -/
def c3Cache' : SearchCache Nat :=
  { store := [(SearchCache.make_key "a" "basic" 3 false, 0, 7)], ttl := 3600, maxSize := 256 }

/-- Witness for C3: a hit one second after the put, an expiring miss 3601
seconds after it, and a miss on the empty cache. -/
theorem claim_C3_witness :
    SearchCache.get c3Cache' "a" "basic" 3 false 1 = (some 7, c3Cache')
    ∧ SearchCache.get c3Cache' "a" "basic" 3 false 3601 =
        (none, { c3Cache' with
                 store := dictDel c3Cache'.store (SearchCache.make_key "a" "basic" 3 false) })
    ∧ SearchCache.get c3Cache "a" "basic" 3 false 0 = (none, c3Cache) := by
  have h := @claim_C3 Nat c3Cache c3Cache' "a" "basic" 3 false 7 0 1
  have h2 := @claim_C3 Nat c3Cache c3Cache' "a" "basic" 3 false 7 0 3601
  have hput : SearchCache.put c3Cache "a" "basic" 3 false 0 7 = some c3Cache' := rfl
  exact ⟨(h.1 hput).1 (by decide), (h2.1 hput).2 (by decide),
    h.2 (by simp [c3Cache])⟩

/-! ### C2: bounded size and oldest-entry eviction -/

/-- The four key-forming arguments of one `put` call. -/
abbrev PutArgs := String × String × Nat × Bool

/-- The cache key a `put` with these arguments computes. -/
def keyOf {α : Type} (p : PutArgs × Int × α) : String :=
  SearchCache.make_key p.1.1 p.1.2.1 p.1.2.2.1 p.1.2.2.2

/-- The store entry a fresh `put` with these arguments appends. -/
def entryOf {α : Type} (p : PutArgs × Int × α) : String × Int × α :=
  (keyOf p, p.2.1, p.2.2)

/-- Run a sequence of `put` calls (left to right); `none` as soon as one
raises. -/
def putList {α : Type} (c : SearchCache α) : List (PutArgs × Int × α) → Option (SearchCache α)
  | [] => some c
  | p :: rest =>
    match SearchCache.put c p.1.1 p.1.2.1 p.1.2.2.1 p.1.2.2.2 p.2.1 p.2.2 with
    | none => none
    | some c' => putList c' rest

theorem keys_map_entryOf {α : Type} (l : List (PutArgs × Int × α)) :
    (l.map entryOf).map (fun e => e.1) = l.map keyOf := by
  simp [entryOf, keyOf, List.map_map, Function.comp]

/-- A `put` below capacity does not evict. -/
theorem put_of_lt {α : Type} (c : SearchCache α) (q d : String) (m : Nat) (r : Bool)
    (t : Int) (data : α) (h : c.store.length < c.maxSize) :
    SearchCache.put c q d m r t data =
      some { c with store := dictSet c.store (SearchCache.make_key q d m r) (t, data) } := by
  unfold SearchCache.put
  dsimp only
  rw [if_neg (not_le_of_lt h)]

/-- A `put` at or above capacity evicts the oldest entry first, whether or
not the key being put is already stored. -/
theorem put_of_full {α : Type} (c : SearchCache α) (q d : String) (m : Nat) (r : Bool)
    (t : Int) (data : α) (k0 : String)
    (hsz : c.maxSize ≤ c.store.length) (hk : oldestKey c.store = some k0) :
    SearchCache.put c q d m r t data =
      some { c with store := (dictSet (dictDel c.store k0)
        (SearchCache.make_key q d m r) (t, data)) } := by
  unfold SearchCache.put
  dsimp only
  rw [if_pos hsz, hk]

/-- Filling an under-capacity cache with fresh keys simply appends the
entries in order. -/
theorem putList_fill {α : Type} (puts : List (PutArgs × Int × α)) :
    ∀ c : SearchCache α,
    c.store.length + puts.length ≤ c.maxSize →
    (c.store.map (fun e => e.1) ++ puts.map keyOf).Nodup →
    putList c puts = some { c with store := c.store ++ puts.map entryOf } := by
  induction puts with
  | nil => intro c _ _; simp [putList]
  | cons p ps ih =>
    intro c hlen hnd
    have hlt : c.store.length < c.maxSize := by
      simp only [List.length_cons] at hlen; omega
    have hknotin : keyOf p ∉ c.store.map (fun e => e.1) := by
      have hdisj := (List.nodup_append.mp hnd).2.2
      intro hmem
      exact hdisj hmem (by rw [List.map_cons]; exact List.mem_cons_self _ _)
    have hput := put_of_lt c p.1.1 p.1.2.1 p.1.2.2.1 p.1.2.2.2 p.2.1 p.2.2 hlt
    have hkey : SearchCache.make_key p.1.1 p.1.2.1 p.1.2.2.1 p.1.2.2.2 = keyOf p := rfl
    rw [hkey, dictSet_eq_append (p.2.1, p.2.2) hknotin] at hput
    simp only [putList, hput]
    have hstep := ih { c with store := c.store ++ [(keyOf p, p.2.1, p.2.2)] }
      (by simp only [List.length_append, List.length_cons, List.length_nil] at hlen ⊢
          omega)
      (by
        rw [List.map_append]
        have h1 : List.map (fun e => e.1) [((keyOf p : String), p.2.1, p.2.2)] = [keyOf p] := rfl
        rw [h1, List.append_assoc, List.singleton_append]
        exact hnd)
    rw [hstep]
    simp [entryOf, List.append_assoc]

theorem putList_append {α : Type} (l1 l2 : List (PutArgs × Int × α)) (c : SearchCache α) :
    putList c (l1 ++ l2) =
      match putList c l1 with
      | none => none
      | some c' => putList c' l2 := by
  induction l1 generalizing c with
  | nil => simp [putList]
  | cons p ps ih =>
    simp only [List.cons_append, putList]
    cases SearchCache.put c p.1.1 p.1.2.1 p.1.2.2.1 p.1.2.2.2 p.2.1 p.2.2 with
    | none => rfl
    | some c' => exact ih c'

/-- C2: (size bound) a successful `put` on a cache within its bound stays
within the bound; (unconditional eviction) at or above capacity every
`put` deletes the oldest-timestamp entry before inserting, also when the
key being put already exists; (scenario) inserting `max_size + 1`
distinct keys in increasing timestamp order into an empty cache leaves
exactly `max_size` entries, the smallest-timestamp key absent. -/
theorem claim_C2 {α : Type} :
    (∀ (c c' : SearchCache α) (q d : String) (m : Nat) (r : Bool) (t : Int) (data : α),
       c.store.length ≤ c.maxSize →
       SearchCache.put c q d m r t data = some c' →
       c'.store.length ≤ c.maxSize)
    ∧ (∀ (c : SearchCache α) (q d : String) (m : Nat) (r : Bool) (t : Int) (data : α)
         (k0 : String),
       c.maxSize ≤ c.store.length →
       oldestKey c.store = some k0 →
       SearchCache.put c q d m r t data =
         some { c with store := (dictSet (dictDel c.store k0)
           (SearchCache.make_key q d m r) (t, data)) })
    ∧ (∀ (c : SearchCache α) (puts : List (PutArgs × Int × α)),
       c.store = [] → 1 ≤ c.maxSize → puts.length = c.maxSize + 1 →
       (puts.map keyOf).Pairwise (· ≠ ·) →
       (puts.map (fun p => p.2.1)).Pairwise (· < ·) →
       ∃ c', putList c puts = some c'
         ∧ c'.store.length = c.maxSize
         ∧ ∀ p0 ∈ puts.head?, keyOf p0 ∉ c'.store.map (fun e => e.1)) := by
  refine ⟨?_, ?_, ?_⟩
  · -- size bound
    intro c c' q d m r t data hle hput
    obtain ⟨s, hs, hc'⟩ := put_eq_some_iff hput
    have hlen : c'.store.length ≤ s.length + 1 := by
      rw [hc']; exact dictSet_length_le s _ _
    rcases hs with ⟨hsz, k0, hk, hsdef⟩ | ⟨hsz, hsdef⟩
    · have hmem := oldestKey_mem hk
      have hpos : 1 ≤ c.store.length := by
        cases hcs : c.store with
        | nil => rw [hcs] at hk; exact absurd hk (by simp [oldestKey])
        | cons _ _ => simp [hcs]
      have hdl : s.length = c.store.length - 1 := by
        rw [hsdef]; exact dictDel_length hmem
      omega
    · have : s.length = c.store.length := by rw [hsdef]
      omega
  · -- unconditional eviction
    intro c q d m r t data k0 hsz hk
    exact put_of_full c q d m r t data k0 hsz hk
  · -- scenario
    intro c puts hstore hmax hlen hkeys htimes
    set n := c.maxSize with hn
    have hfb : puts.take n ++ puts.drop n = puts := List.take_append_drop n puts
    have hfl : (puts.take n).length = n := by
      rw [List.length_take]; omega
    have hbl : (puts.drop n).length = 1 := by
      rw [List.length_drop]; omega
    obtain ⟨plast, hback⟩ := List.length_eq_one.mp hbl
    cases hfront : puts.take n with
    | nil => rw [hfront] at hfl; simp at hfl; omega
    | cons p0 ftail =>
      have hputs : puts = (p0 :: ftail) ++ [plast] := by
        rw [← hfb, hfront, hback]
      have hftl : ftail.length = n - 1 := by
        rw [hfront] at hfl; simp at hfl; omega
      -- decompose the key and timestamp hypotheses
      rw [hputs] at hkeys htimes
      simp only [List.map_append, List.map_cons, List.map_nil, List.cons_append,
        List.pairwise_cons] at hkeys htimes
      obtain ⟨hk0, hkrest⟩ := hkeys
      obtain ⟨ht0, htrest⟩ := htimes
      rcases List.pairwise_append.mp hkrest with ⟨hkfront, -, hkdisj⟩
      have hk0front : ∀ a ∈ List.map keyOf ftail, keyOf p0 ≠ a :=
        fun a ha => hk0 a (List.mem_append_left _ ha)
      -- phase 1: fill the empty cache with the first n puts
      have hfill := putList_fill (p0 :: ftail) c
        (by rw [hstore]; simp only [List.length_nil, Nat.zero_add]
            rw [← hfront, hfl])
        (by rw [hstore]
            simp only [List.map_nil, List.nil_append, List.map_cons]
            exact List.Pairwise.cons hk0front hkfront)
      rw [hstore] at hfill
      simp only [List.nil_append] at hfill
      -- phase 2: the final put evicts the head (smallest timestamp)
      set cMid : SearchCache α :=
        { c with store := (p0 :: ftail).map entryOf } with hcMid
      have hmidlen : cMid.store.length = n := by
        simp only [hcMid, List.length_map]
        rw [← hfront, hfl]
      have hmidsz : cMid.maxSize ≤ cMid.store.length := by
        rw [hmidlen]
      have hleast : ∀ x ∈ ftail.map entryOf, (entryOf p0).2.1 < x.2.1 := by
        intro x hx
        rcases List.mem_map.mp hx with ⟨q, hq, rfl⟩
        exact ht0 q.2.1 (List.mem_append_left _ (List.mem_map_of_mem _ hq))
      have hold : oldestKey cMid.store = some (keyOf p0) := by
        simp only [hcMid, List.map_cons]
        exact oldestKey_of_head_least (entryOf p0) (ftail.map entryOf) hleast
      have hput := put_of_full cMid plast.1.1 plast.1.2.1 plast.1.2.2.1 plast.1.2.2.2
        plast.2.1 plast.2.2 (keyOf p0) hmidsz hold
      have hkeylast : SearchCache.make_key plast.1.1 plast.1.2.1 plast.1.2.2.1 plast.1.2.2.2
          = keyOf plast := rfl
      have hdel : dictDel cMid.store (keyOf p0) = ftail.map entryOf := by
        simp only [hcMid, List.map_cons, dictDel]
        exact List.eraseP_cons_of_pos (by simp [entryOf])
      have hlastnotin : keyOf plast ∉ (ftail.map entryOf).map (fun e => e.1) := by
        rw [keys_map_entryOf]
        intro hmem
        exact hkdisj _ hmem _ (List.mem_singleton_self _) rfl
      rw [hkeylast, hdel, dictSet_eq_append (plast.2.1, plast.2.2) hlastnotin] at hput
      -- assemble
      refine ⟨{ cMid with
                store := ftail.map entryOf ++ [(keyOf plast, plast.2.1, plast.2.2)] },
        ?_, ?_, ?_⟩
      · rw [hputs, putList_append, hfill]
        simp only [putList, hput]
      · simp only [List.length_append, List.length_map, List.length_cons,
          List.length_nil]
        omega
      · intro q hq
        have hq0 : q = p0 := by
          rw [hputs] at hq
          simp only [List.cons_append, List.head?_cons, Option.mem_def,
            Option.some.injEq] at hq
          exact hq.symm
        subst hq0
        simp only [List.map_append, keys_map_entryOf, List.map_cons, List.map_nil]
        intro hmem
        rcases List.mem_append.mp hmem with hm | hm
        · exact hk0 (keyOf q) (List.mem_append_left _ hm) rfl
        · simp only [List.mem_singleton] at hm
          exact hk0 (keyOf plast)
            (List.mem_append_right _ (List.mem_singleton_self _)) hm

/-- Two puts with distinct keys and increasing timestamps for the C2
witness (`maxSize = 1`, so the second insert evicts the first). -/
def c2Puts : List (PutArgs × Int × Nat) :=
  [(("a", "basic", 3, false), 0, 10), (("b", "basic", 3, false), 1, 20)]

/-- Witness for C2: inserting `maxSize + 1 = 2` distinct keys into an empty
cache of capacity 1 leaves one entry, the first key evicted. -/
theorem claim_C2_witness :
    ∃ c', putList { store := [], ttl := 3600, maxSize := 1 } c2Puts = some c'
      ∧ c'.store.length = 1
      ∧ ∀ p0 ∈ c2Puts.head?, keyOf p0 ∉ c'.store.map (fun e => e.1) :=
  (@claim_C2 Nat).2.2 { store := [], ttl := 3600, maxSize := 1 } c2Puts rfl
    (by decide) rfl (by decide) (by decide)

/-! ### C7: query generation -/

theorem dedupQueries_sublist (seen : List String) (l : List String) :
    (dedupQueriesAux seen l).Sublist l := by
  induction l generalizing seen with
  | nil => simp [dedupQueriesAux]
  | cons q rest ih =>
    by_cases h : normalised q ∈ seen
    · simp only [dedupQueriesAux, if_pos h]
      exact (ih seen).trans (List.sublist_cons_self q rest)
    · simp only [dedupQueriesAux, if_neg h]
      exact (ih (normalised q :: seen)).cons₂ q

theorem dedupQueries_not_seen (l : List String) :
    ∀ (seen : List String) (x : String), x ∈ dedupQueriesAux seen l →
      normalised x ∉ seen := by
  induction l with
  | nil => intro seen x hx; exact absurd hx (by simp [dedupQueriesAux])
  | cons q rest ih =>
    intro seen x hx
    by_cases h : normalised q ∈ seen
    · rw [dedupQueriesAux, if_pos h] at hx
      exact ih seen x hx
    · rw [dedupQueriesAux, if_neg h] at hx
      rcases List.mem_cons.mp hx with rfl | hx'
      · exact h
      · intro hseen
        exact ih _ x hx' (List.mem_cons_of_mem _ hseen)

theorem dedupQueries_pairwise (l : List String) (seen : List String) :
    (dedupQueriesAux seen l).Pairwise (fun a b => normalised a ≠ normalised b) := by
  induction l generalizing seen with
  | nil => simp [dedupQueriesAux]
  | cons q rest ih =>
    by_cases h : normalised q ∈ seen
    · rw [dedupQueriesAux, if_pos h]
      exact ih seen
    · rw [dedupQueriesAux, if_neg h]
      refine List.Pairwise.cons ?_ (ih _)
      intro b hb hnorm
      exact dedupQueries_not_seen rest _ b hb (by rw [← hnorm]; exact List.mem_cons_self _ _)

/-- Every candidate list starts with the original question. -/
theorem candidate_head (o : String) (intent : Option IntentAnalysis) (p : SearchPlan) :
    ∃ tail, SearchRouter.candidateQueries o intent p = o :: tail := by
  unfold SearchRouter.candidateQueries
  by_cases h1 : p.num_queries = 1
  · rw [if_pos h1]; exact ⟨_, rfl⟩
  · rw [if_neg h1]
    by_cases h2 : p.num_queries = 2
    · rw [if_pos h2]; exact ⟨_, rfl⟩
    · rw [if_neg h2]; exact ⟨_, rfl⟩

/-- C7: `generate_queries` returns at most `num_queries` strings, no two of
which agree after trimming and lowercasing; when non-empty it starts with
the original question; it is a subsequence of the candidate list (first
occurrences, order preserved); and when de-duplication leaves fewer than
`num_queries` candidates the whole (shorter) de-duplicated list is
returned, with no backfill. -/
theorem claim_C7 (o : String) (intent : Option IntentAnalysis) (p : SearchPlan) :
    (SearchRouter.generate_queries o intent p).length ≤ p.num_queries
    ∧ (SearchRouter.generate_queries o intent p).Pairwise
        (fun a b => normalised a ≠ normalised b)
    ∧ (SearchRouter.generate_queries o intent p ≠ [] →
        (SearchRouter.generate_queries o intent p).head? = some o)
    ∧ (SearchRouter.generate_queries o intent p).Sublist
        (SearchRouter.candidateQueries o intent p)
    ∧ ((dedupQueriesAux [] (SearchRouter.candidateQueries o intent p)).length
          < p.num_queries →
        SearchRouter.generate_queries o intent p =
          dedupQueriesAux [] (SearchRouter.candidateQueries o intent p)
        ∧ (SearchRouter.generate_queries o intent p).length < p.num_queries) := by
  refine ⟨?_, ?_, ?_, ?_, ?_⟩
  · exact List.length_take_le _ _
  · exact (dedupQueries_pairwise (SearchRouter.candidateQueries o intent p) []).sublist
      (List.take_sublist _ _)
  · intro hne
    obtain ⟨tail, htail⟩ := candidate_head o intent p
    have hd : dedupQueriesAux [] (SearchRouter.candidateQueries o intent p) =
        o :: dedupQueriesAux [normalised o] tail := by
      rw [htail, dedupQueriesAux, if_neg (by simp)]
    unfold SearchRouter.generate_queries at hne ⊢
    rw [hd] at hne ⊢
    cases hn : p.num_queries with
    | zero => rw [hn] at hne; simp at hne
    | succ k => simp [List.take_succ_cons]
  · exact (List.take_sublist _ _).trans (dedupQueries_sublist _ _)
  · intro hlt
    unfold SearchRouter.generate_queries
    constructor
    · exact List.take_of_length_le (Nat.le_of_lt hlt)
    · rw [List.take_of_length_le (Nat.le_of_lt hlt)]
      exact hlt

/-- A MODERATE-preset plan for the C7 witness. -/
def c7Plan : SearchPlan :=
  { complexity := SearchComplexity.MODERATE, search_depth := "basic",
    max_results := 5, num_queries := 2, include_raw_content := false,
    include_images := true, include_answer := true, include_domains := [],
    exclude_domains := LOW_QUALITY_DOMAINS, topic := "general",
    time_range := none, context_budget_chars := 6000 }

/-- An intent whose single concept makes the second candidate collide with
the original question after normalisation. -/
def c7Intent : IntentAnalysis :=
  { difficulty_level := DifficultyLevel.INTERMEDIATE,
    question_type := QuestionType.MIXED,
    requires_visuals := false, requires_math := false, requires_code := false,
    key_concepts := ["Numpy"], confidence := 0.8 }

/-- Witness for C7: the de-duplicated list is shorter than `num_queries`
and is returned as is, headed by the original question. -/
theorem claim_C7_witness :
    SearchRouter.generate_queries "Numpy explained with examples" (some c7Intent) c7Plan =
      dedupQueriesAux []
        (SearchRouter.candidateQueries "Numpy explained with examples" (some c7Intent) c7Plan)
    ∧ (SearchRouter.generate_queries "Numpy explained with examples"
        (some c7Intent) c7Plan).length < c7Plan.num_queries
    ∧ (SearchRouter.generate_queries "Numpy explained with examples"
        (some c7Intent) c7Plan).head? = some "Numpy explained with examples" := by
  have h := claim_C7 "Numpy explained with examples" (some c7Intent) c7Plan
  exact ⟨(h.2.2.2.2 (by decide)).1, (h.2.2.2.2 (by decide)).2, h.2.2.1 (by decide)⟩

/-! ### C8: provider exceptions never propagate -/

/-- C8: when the cache misses and the provider call (or anything inside the
`try` block) raises, `search` returns the empty list and the cache as left
by the lookup — it never propagates the exception. -/
theorem claim_C8 (stg : Settings) (cache : SearchCache (List SearchResult))
    (query : String) (plan : Option SearchPlan) (search_depth : String)
    (include_images : Bool) (now : Int) (e : String)
    (hmiss : (SearchCache.get cache query (planDepth plan search_depth)
        (planMaxResults stg plan) (planRawContent plan) now).1 = none) :
    WebSearchAgent.search stg cache query plan search_depth include_images now
        (Except.error e) =
      ([], (SearchCache.get cache query (planDepth plan search_depth)
        (planMaxResults stg plan) (planRawContent plan) now).2) := by
  unfold WebSearchAgent.search
  dsimp only
  conv_lhs => rw [hmiss]

/-- Witness for C8: a provider error on an empty cache yields the empty
result list and an unchanged cache. -/
theorem claim_C8_witness :
    WebSearchAgent.search defaultSettings { store := [], ttl := 3600, maxSize := 256 }
        "what is gravity" none "basic" true 0 (Except.error "boom") =
      ([], { store := [], ttl := 3600, maxSize := 256 }) :=
  claim_C8 defaultSettings { store := [], ttl := 3600, maxSize := 256 }
    "what is gravity" none "basic" true 0 "boom" rfl

/-! ### C9: cross-query image pooling and merging -/

/-- The image components of one result-collection step depend only on the
image components of the state (URL-deduplication of results cannot drop
images from the pool). -/
theorem collectResult_images (st : MultiState) (res : SearchResult) :
    ((collectResult st res).all_image_urls, (collectResult st res).seen_image_urls) =
      res.images.foldl imagePoolStep (st.all_image_urls, st.seen_image_urls) := by
  unfold collectResult
  by_cases h : res.url ∈ st.seen_urls <;> simp [h]

/-- The image-pooling fold appends exactly the first-seen de-duplication of
the incoming URLs, and its seen-set grows by their normalised forms. -/
theorem imagePool_spec (urls : List String) : ∀ pool seen : List String,
    urls.foldl imagePoolStep (pool, seen) =
      (pool ++ dedupImagesByNorm seen urls,
       ((dedupImagesByNorm seen urls).map normUrl).reverse ++ seen) := by
  induction urls with
  | nil => intro pool seen; simp [dedupImagesByNorm]
  | cons u rest ih =>
    intro pool seen
    by_cases h : normUrl u ∈ seen
    · simp only [List.foldl_cons, imagePoolStep, if_pos h, dedupImagesByNorm]
      exact ih pool seen
    · simp only [List.foldl_cons, imagePoolStep, if_neg h, dedupImagesByNorm]
      rw [ih]
      simp [List.append_assoc]

/-- Collecting a result list only feeds the concatenated image lists into
the pooling fold. -/
theorem fold_collect_images (results : List SearchResult) : ∀ st : MultiState,
    (((results.foldl collectResult st).all_image_urls,
      (results.foldl collectResult st).seen_image_urls)) =
      ((results.map (fun r => r.images)).flatten).foldl imagePoolStep
        (st.all_image_urls, st.seen_image_urls) := by
  induction results with
  | nil => intro st; simp
  | cons r rs ih =>
    intro st
    simp only [List.foldl_cons, List.map_cons, List.flatten_cons, List.foldl_append]
    rw [ih, collectResult_images]

/-- Same statement for the nested fold over the per-query result lists. -/
theorem fold_lists_images (rls : List (List SearchResult)) : ∀ st : MultiState,
    (((rls.foldl (fun st results => results.foldl collectResult st) st).all_image_urls,
      (rls.foldl (fun st results => results.foldl collectResult st) st).seen_image_urls)) =
      ((rls.flatten.map (fun r => r.images)).flatten).foldl imagePoolStep
        (st.all_image_urls, st.seen_image_urls) := by
  induction rls with
  | nil => intro st; simp
  | cons results rest ih =>
    intro st
    simp only [List.foldl_cons, List.flatten_cons, List.map_append,
      List.flatten_append, List.foldl_append]
    rw [ih, fold_collect_images]

/-- The pooled image list is the first-seen de-duplication (by normalised
URL) of every image of every per-query result, taken before any result is
dropped as a duplicate URL. -/
theorem pooledImages_spec (rls : List (List SearchResult)) :
    pooledImages rls =
      dedupImagesByNorm [] ((rls.flatten.map (fun r => r.images)).flatten) := by
  unfold pooledImages multiFold
  have h := fold_lists_images rls
    { all_results := [], seen_urls := [], all_image_urls := [], seen_image_urls := [] }
  have h1 := congrArg Prod.fst h
  dsimp only at h1
  rw [h1, imagePool_spec]
  simp

theorem dedupImages_not_seen (l : List String) :
    ∀ (seen : List String) (x : String), x ∈ dedupImagesByNorm seen l →
      normUrl x ∉ seen := by
  induction l with
  | nil => intro seen x hx; exact absurd hx (by simp [dedupImagesByNorm])
  | cons u rest ih =>
    intro seen x hx
    by_cases h : normUrl u ∈ seen
    · rw [dedupImagesByNorm, if_pos h] at hx
      exact ih seen x hx
    · rw [dedupImagesByNorm, if_neg h] at hx
      rcases List.mem_cons.mp hx with rfl | hx'
      · exact h
      · intro hseen
        exact ih _ x hx' (List.mem_cons_of_mem _ hseen)

theorem dedupImages_pairwise (l : List String) : ∀ seen : List String,
    (dedupImagesByNorm seen l).Pairwise (fun a b => normUrl a ≠ normUrl b) := by
  induction l with
  | nil => intro seen; simp [dedupImagesByNorm]
  | cons u rest ih =>
    intro seen
    by_cases h : normUrl u ∈ seen
    · rw [dedupImagesByNorm, if_pos h]
      exact ih seen
    · rw [dedupImagesByNorm, if_neg h]
      refine List.Pairwise.cons ?_ (ih _)
      intro b hb hnorm
      exact dedupImages_not_seen rest _ b hb (by rw [← hnorm]; exact List.mem_cons_self _ _)

/-- When the pooled URLs have pairwise distinct normalised forms, the merge
loop appends exactly those whose normalised form is not already present. -/
theorem mergeImagesLoop_spec (pool : List String) :
    ∀ images existing : List String,
    pool.Pairwise (fun a b => normUrl a ≠ normUrl b) →
    mergeImagesLoop images existing pool =
      images ++ pool.filter (fun u => !decide (normUrl u ∈ existing)) := by
  induction pool with
  | nil => intro images existing _; simp [mergeImagesLoop]
  | cons u rest ih =>
    intro images existing hpw
    obtain ⟨hu, hrest⟩ := List.pairwise_cons.mp hpw
    by_cases h : normUrl u ∈ existing
    · rw [mergeImagesLoop, if_pos h, ih images existing hrest]
      simp [List.filter_cons, h]
    · rw [mergeImagesLoop, if_neg h, ih (images ++ [u]) (normUrl u :: existing) hrest]
      have hcond : (!decide (normUrl u ∈ existing)) = true := by simp [h]
      rw [List.filter_cons, hcond, if_pos rfl]
      rw [List.append_assoc, List.singleton_append]
      congr 1
      congr 1
      apply List.filter_congr
      intro x hx
      have hne : normUrl x ≠ normUrl u := fun heq => hu x hx heq.symm
      simp [List.mem_cons, hne]

/-- C9: the pool is the first-seen normalised-URL de-duplication of all
images of all per-query results (collected before result URL-dedup, so
images of dropped duplicate results are retained and two URLs differing
only in query string contribute one entry); the pool has pairwise distinct
normalised URLs; and the unique pooled images are merged onto the first
result of the score-sorted, capped list, skipping ones already present,
the remaining results unchanged. -/
theorem claim_C9 (resultLists : List (List SearchResult)) (cap : Nat) :
    pooledImages resultLists =
      dedupImagesByNorm [] ((resultLists.flatten.map (fun r => r.images)).flatten)
    ∧ (pooledImages resultLists).Pairwise (fun a b => normUrl a ≠ normUrl b)
    ∧ (∀ first rest, topResults resultLists cap = first :: rest →
        pooledImages resultLists ≠ [] →
        WebSearchAgent.multi_query_search resultLists cap =
          { first with images := (first.images ++ (pooledImages resultLists).filter
              (fun u => !decide (normUrl u ∈ first.images.map normUrl))) } :: rest)
    ∧ (pooledImages resultLists = [] →
        WebSearchAgent.multi_query_search resultLists cap = topResults resultLists cap)
    ∧ (topResults resultLists cap = [] →
        WebSearchAgent.multi_query_search resultLists cap = []) := by
  have hpw : (pooledImages resultLists).Pairwise (fun a b => normUrl a ≠ normUrl b) := by
    rw [pooledImages_spec]
    exact dedupImages_pairwise _ []
  refine ⟨pooledImages_spec resultLists, hpw, ?_, ?_, ?_⟩
  · intro first rest htop hpool
    unfold WebSearchAgent.multi_query_search
    dsimp only
    rw [show ((sortByScoreDesc (multiFold resultLists).all_results).take cap)
          = topResults resultLists cap from rfl, htop]
    rw [if_pos ⟨hpool, by simp⟩]
    rw [show (multiFold resultLists).all_image_urls = pooledImages resultLists from rfl]
    dsimp only
    rw [mergeImagesLoop_spec _ _ _ hpw]
  · intro hpool
    unfold WebSearchAgent.multi_query_search
    dsimp only
    rw [if_neg (by rw [show (multiFold resultLists).all_image_urls
          = pooledImages resultLists from rfl, hpool]; simp)]
    rfl
  · intro htop
    unfold WebSearchAgent.multi_query_search
    dsimp only
    rw [show ((sortByScoreDesc (multiFold resultLists).all_results).take cap)
          = topResults resultLists cap from rfl, htop]
    by_cases h : (multiFold resultLists).all_image_urls ≠ [] ∧ ([] : List SearchResult) ≠ []
    · rw [if_pos h]
    · rw [if_neg h]

/-- First per-query result list for the C9 witness. -/
def c9A : SearchResult :=
  { title := "A", url := "https://a.com", content := "", score := 2,
    images := ["https://i.com/p.png?a=1"] }

/-- A result with the same URL as `c9A` (dropped by the result dedup) whose
images overlap `c9A`'s up to query string. -/
def c9A2 : SearchResult :=
  { title := "A2", url := "https://a.com", content := "", score := 1,
    images := ["https://i.com/p.png?a=2", "https://k.com/r.png"] }

/-- A top-scoring result with no images of its own. -/
def c9B : SearchResult :=
  { title := "B", url := "https://b.com", content := "", score := 3, images := [] }

def c9Lists : List (List SearchResult) := [[c9A], [c9A2, c9B]]

/-- Witness for C9: the two URLs differing only by query string contribute
one pool entry (the first seen); the image of the dropped duplicate result
is retained; and the pool is merged onto the first (highest-scoring)
result. -/
theorem claim_C9_witness :
    pooledImages c9Lists = ["https://i.com/p.png?a=1", "https://k.com/r.png"]
    ∧ WebSearchAgent.multi_query_search c9Lists 5 =
        { c9B with images := (c9B.images ++ (pooledImages c9Lists).filter
            (fun u => !decide (normUrl u ∈ c9B.images.map normUrl))) } :: [c9A] := by
  have h := claim_C9 c9Lists 5
  exact ⟨by decide, h.2.2.1 c9B [c9A] (by decide) (by decide)⟩

/-! ### C10: a cached entry is mutated in place by a later merge -/

def c10Item1 : TavilyItem :=
  { title := some "A", url := some "https://a.com", content := some "alpha",
    score := some 2, raw_content := none }

def c10Resp1 : TavilyResponse :=
  { results := [c10Item1], images := ["https://i.com/p.png?x=1"] }

def c10Item2 : TavilyItem :=
  { title := some "B", url := some "https://b.com", content := some "beta",
    score := some 1, raw_content := none }

def c10Resp2 : TavilyResponse :=
  { results := [c10Item2], images := ["https://j.com/q.png"] }

/-- Fresh process state: empty heap, empty singleton cache with the default
constructor arguments. -/
def c10s0 : AgentState :=
  { heap := [], cache := { store := [], ttl := 3600, maxSize := 256 } }

/-- First call: `search("a")` misses, fetches, caches its result list. -/
def c10run1 : List SearchResultRef × AgentState :=
  WebSearchAgent.searchRef defaultSettings c10s0 "a" none "basic" true 0
    (Except.ok c10Resp1)

/-- Second call: `multi_query_search(["a", "b"])` — "a" is served from the
cache (its scripted provider outcome is an error, proving the provider is
not consulted), "b" is fetched, and the pooled images are appended in place
to the first top result, which is the cached object. -/
def c10run2 : List SearchResultRef × AgentState :=
  WebSearchAgent.multiQueryRef defaultSettings c10run1.2 ["a", "b"] none 1
    [Except.error "unused on cache hit", Except.ok c10Resp2]

/-- Third call: `search("a")` again — a pure cache hit (the provider again
errors, so nothing fresh can be fetched). -/
def c10run3 : List SearchResultRef × AgentState :=
  WebSearchAgent.searchRef defaultSettings c10run2.2 "a" none "basic" true 2
    (Except.error "unused on cache hit")

/-- The images of the first returned result, read through the heap. -/
def firstImagesOf (p : List SearchResultRef × AgentState) : List String :=
  match p.1 with
  | [] => []
  | f :: _ => heapGet p.2.heap f.imagesRef

/-- C10: the cache stores the very result list `search` returns, and a hit
returns that stored object, so after `multi_query_search` appends pooled
image URLs in place to the first result's images, a later cache hit for the
same key returns results whose first element carries the merged images
rather than the images as originally fetched. -/
theorem claim_C10 :
    c10run3.1 = c10run1.1
    ∧ firstImagesOf c10run1 = ["https://i.com/p.png?x=1"]
    ∧ firstImagesOf c10run3 = ["https://i.com/p.png?x=1", "https://j.com/q.png"]
    ∧ firstImagesOf c10run3 ≠ firstImagesOf c10run1 := by
  decide

end Lumina
